import Mathlib

/-!
# Verification of the lane-scheduling core of `src/app.py` (traffic-Q)

A shallow embedding of the round simulation (`simulate_round`, app.py lines
56-107), the clearance-time aggregation of `main` (lines 171-177), and the
round orchestration (lines 138-146).  Lane counts are Python ints, embedded
as `ℤ`; the step delay is a float used only multiplicatively, embedded as
`ℚ`; `random.randint` is embedded as a seed-indexed function whose image is
exactly the inclusive range.  Each iteration of the inner `for step in
range(steps_per_lane)` loop renders one animation frame; the embedding
records these frames in a trace so that rendering counts, visit order and
intermediate states are all observable.
-/

namespace TrafficQ

/-- The `lanes` dict of `simulate_round`: keys are the four fixed lanes
0 = UP, 1 = RIGHT, 2 = DOWN, 3 = LEFT; values are Python ints. -/
abbrev LaneState := Fin 4 → ℤ

/-- All four counts are non-negative. -/
abbrev laneNonneg (l : LaneState) : Prop := ∀ i, 0 ≤ l i

/-- `sum(lanes.values())` over the four fixed keys (app.py line 63). -/
def sumL (l : LaneState) : ℤ := l 0 + l 1 + l 2 + l 3

/-- One comparison step of Python `max(..., key=...)`: the running candidate
`a` is replaced by the next key `b` only when `b`'s count is strictly
larger, so the first key attaining the maximum wins. -/
def pick (l : LaneState) (a b : Fin 4) : Fin 4 := if l a < l b then b else a

/-- `max(lanes, key=lambda k: lanes[k])` with keys iterated in insertion
order 0,1,2,3 (app.py line 71). -/
def maxLane (l : LaneState) : Fin 4 := pick l (pick l (pick l 0 1) 2) 3

/-- One rendered animation frame (one iteration of the inner loop at app.py
lines 78-89): the lane named in the title, whether this iteration actually
decremented it, the lane counts shown, and the `total_steps` shown. -/
structure Frame where
  lane : Fin 4
  moved : Bool
  lanes : LaneState
  total : ℕ

/-- The mutable state of `simulate_round`'s loop: the working `lanes` dict,
`total_steps`, `stats["ambulance_time"]`, and the trace of rendered frames
(in chronological order). -/
structure SimState where
  lanes : LaneState
  total : ℕ
  ambTime : Option ℚ
  frames : List Frame

/-- One iteration of the inner loop `for step in range(steps_per_lane)`
(app.py lines 78-93) servicing `lane`: decrement the lane only if its count
is still positive (line 79), render one frame (lines 83-87), sleep, and
record the ambulance clearance time if the ambulance lane is the serviced
lane, its count is now 0 and no time was recorded before (lines 91-93). -/
def stepOnce (amb : Option (Fin 4)) (delay : ℚ) (lane : Fin 4)
    (st : SimState) : SimState :=
  let lanes1 : LaneState :=
    if 0 < st.lanes lane then Function.update st.lanes lane (st.lanes lane - 1)
    else st.lanes
  let total1 : ℕ := if 0 < st.lanes lane then st.total + 1 else st.total
  let amb1 : Option ℚ :=
    if amb = some lane ∧ lanes1 lane = 0 ∧ st.ambTime = none
    then some ((total1 : ℚ) * delay / 60) else st.ambTime
  { lanes := lanes1
    total := total1
    ambTime := amb1
    frames := st.frames ++
      [{ lane := lane, moved := decide (0 < st.lanes lane),
         lanes := lanes1, total := total1 }] }

/-- The whole inner loop: `steps_per_lane` iterations of `stepOnce`. -/
def serveLane (amb : Option (Fin 4)) (delay : ℚ) (lane : Fin 4) :
    ℕ → SimState → SimState
  | 0, st => st
  | n + 1, st => serveLane amb delay lane n (stepOnce amb delay lane st)

/-- One element of the `for lane in lane_order` loop (app.py lines 74-76):
a lane whose count equals 0 is skipped (`continue`) before any frame is
rendered; otherwise it is serviced by the inner loop. -/
def visitIfNonzero (amb : Option (Fin 4)) (delay : ℚ) (spv : ℕ) (lane : Fin 4)
    (st : SimState) : SimState :=
  if st.lanes lane = 0 then st else serveLane amb delay lane spv st

/-- One `while` iteration under the normal strategy: `lane_order = [0,1,2,3]`
(app.py line 66), each lane visited in that fixed order (`continue` at line
97 moves to the next lane). -/
def normalSweep (amb : Option (Fin 4)) (delay : ℚ) (spv : ℕ)
    (st : SimState) : SimState :=
  visitIfNonzero amb delay spv 3
    (visitIfNonzero amb delay spv 2
      (visitIfNonzero amb delay spv 1
        (visitIfNonzero amb delay spv 0 st)))

/-- The lane `lane_order` holds under the quantum strategy (app.py lines
68-72): the ambulance lane unconditionally while its count is positive,
otherwise the first lane with the largest count. -/
def quantumChoice (amb : Option (Fin 4)) (l : LaneState) : Fin 4 :=
  match amb with
  | some a => if 0 < l a then a else maxLane l
  | none => maxLane l

/-- One `while` iteration under the quantum strategy: the single chosen lane
is visited and then the `break` at line 100 returns to the `while` header,
re-evaluating the choice. -/
def quantumBody (amb : Option (Fin 4)) (delay : ℚ) (spv : ℕ)
    (st : SimState) : SimState :=
  visitIfNonzero amb delay spv (quantumChoice amb st.lanes) st

/-- Dispatch on the strategy string exactly as `strategy == "normal"` at
app.py line 65 (any other string takes the quantum branch). -/
def loopBody (strategy : String) (amb : Option (Fin 4)) (delay : ℚ)
    (spv : ℕ) (st : SimState) : SimState :=
  if strategy = "normal" then normalSweep amb delay spv st
  else quantumBody amb delay spv st

/-- The `while sum(lanes.values()) > 0` loop (app.py line 63), run with an
explicit iteration budget: `none` means the budget was exhausted before the
loop condition became false. -/
def runLoop (strategy : String) (amb : Option (Fin 4)) (delay : ℚ)
    (spv : ℕ) : ℕ → SimState → Option SimState
  | 0, st => if 0 < sumL st.lanes then none else some st
  | fuel + 1, st =>
    if 0 < sumL st.lanes then
      runLoop strategy amb delay spv fuel (loopBody strategy amb delay spv st)
    else some st

/-- The loop state at entry to `simulate_round`'s `while` loop: the working
copy of the lane counts, `total_steps = 0`, no clearance time recorded, no
frame rendered yet. -/
def initState (lanes0 : LaneState) : SimState :=
  { lanes := lanes0, total := 0, ambTime := none, frames := [] }

/-- The scheduling loop of `simulate_round` started on `lanes_init.copy()`,
given an iteration budget equal to the total initial count (each iteration
that runs decrements the total by at least one, so this budget suffices). -/
def runRound (strategy : String) (lanes0 : LaneState) (spv : ℕ)
    (amb : Option (Fin 4)) (delay : ℚ) : Option SimState :=
  runLoop strategy amb delay spv (sumL lanes0).toNat (initState lanes0)

/-- The `stats` dict returned by `simulate_round` (app.py lines 58, 102-107). -/
structure Stats where
  time_saved : ℕ
  fuel_saved : ℕ
  carbon_saved : ℕ
  ambulance_time : Option ℚ

/-- `random.randint(a, b)` as a function of an arbitrary seed: its value is
always in the inclusive range `[a, b]`, and every value of that range is
attained as the seed varies. -/
def randint (a b r : ℕ) : ℕ := a + r % (b - a + 1)

/-- The dummy savings draws of app.py lines 103-105: quantum draws from the
high ranges, any other strategy string from the low ranges, with one
independent seed per metric. -/
def savings (strategy : String) (r1 r2 r3 : ℕ) : ℕ × ℕ × ℕ :=
  (if strategy = "quantum" then randint 5 15 r1 else randint 0 5 r1,
   if strategy = "quantum" then randint 10 20 r2 else randint 0 10 r2,
   if strategy = "quantum" then randint 15 25 r3 else randint 0 12 r3)

/-- `simulate_round` (app.py lines 56-107): run the scheduling loop on a
copy of the initial counts, then fill in the three random savings fields
and return the stats (paired with the final loop state, which carries the
rendered-frame trace). -/
def simulate_round (lanes_init : LaneState) (spv : ℕ) (delay : ℚ)
    (strategy : String) (amb : Option (Fin 4)) (fuel r1 r2 r3 : ℕ) :
    Option (Stats × SimState) :=
  (runLoop strategy amb delay spv fuel (initState lanes_init)).map fun st =>
    ({ time_saved := (savings strategy r1 r2 r3).1
       fuel_saved := (savings strategy r1 r2 r3).2.1
       carbon_saved := (savings strategy r1 r2 r3).2.2
       ambulance_time := st.ambTime }, st)

/-! ## Observations used by the statements -/

/-- `total_steps` of a finished run. -/
def totalOf (r : Option SimState) : Option ℕ := r.map SimState.total

/-- A finished run whose four lane counts are all exactly 0. -/
def drained : Option SimState → Prop
  | none => False
  | some st => ∀ i, st.lanes i = 0

/-- The frames a computation appended beyond the `n` frames already present. -/
def newFrameLanes (n : ℕ) (st : SimState) : List (Fin 4) :=
  (st.frames.drop n).map Frame.lane

/-- The lanes of the frames in which a decrement actually happened, in
chronological order (the serviced-visit trace). -/
def movedLanes : Option SimState → List (Fin 4)
  | none => []
  | some st => (st.frames.filter Frame.moved).map Frame.lane

/-- `total_steps` at the first rendered frame showing the given lane's
count as 0: the step at which that lane first became empty. -/
def firstClear (a : Fin 4) (fs : List Frame) : Option ℕ :=
  (fs.find? fun f => decide (f.lanes a = 0)).map Frame.total

/-- `firstClear` read off a finished run. -/
def firstClearOf (a : Fin 4) : Option SimState → Option ℕ
  | none => none
  | some st => firstClear a st.frames

/-- `stats["ambulance_time"]` of a finished run. -/
def ambTimeOf : Option SimState → Option ℚ
  | none => none
  | some st => st.ambTime

/-- Clearance-time conversion of app.py line 93: step count times the step
delay, in minutes. -/
def clearanceOfStep (delay : ℚ) : Option ℕ → Option ℚ
  | none => none
  | some t => some ((t : ℚ) * delay / 60)

/-- Every state a run ever rendered (and its final state) has all four
counts non-negative, as a decidable check over the frame trace. -/
def statesNonnegB : Option SimState → Bool
  | none => true
  | some st =>
    decide (∀ i, 0 ≤ st.lanes i) &&
      st.frames.all fun f => decide (∀ i, 0 ≤ f.lanes i)

/-! ## Spec-side descriptions (for the refinement-style claims)

These two definitions follow the wording of the specification, not the
source; the corresponding theorems prove the source-derived functions
produce exactly the traces these describe. -/

/-- Spec wording, quantum choice: "if a priority lane is configured and
still has count > 0, choose it unconditionally; otherwise choose the lane
with the currently-largest count (ties broken by smallest lane index)".
The largest-count lane is written directly as a case split. -/
def specQuantumChoice (amb : Option (Fin 4)) (l : LaneState) : Fin 4 :=
  let best : Fin 4 :=
    if l 1 ≤ l 0 ∧ l 2 ≤ l 0 ∧ l 3 ≤ l 0 then 0
    else if l 2 ≤ l 1 ∧ l 3 ≤ l 1 then 1
    else if l 3 ≤ l 2 then 2
    else 3
  match amb with
  | some a => if 0 < l a then a else best
  | none => best

/-- Spec wording, normal sweep: "repeatedly sweep lanes in fixed order
[UP, RIGHT, DOWN, LEFT]; for each lane with remaining count > 0, perform up
to stepsPerVisit single-unit decrements, then move to the next lane; a lane
with count 0 is skipped without consuming a visit slot" — as the list of
lanes rendered during one sweep (each serviced visit renders `spv` frames
on its lane, a skipped lane renders none). -/
def specSweepLanes (l : LaneState) (spv : ℕ) : List (Fin 4) :=
  (if l 0 = 0 then [] else List.replicate spv 0) ++
    (if l 1 = 0 then [] else List.replicate spv 1) ++
      (if l 2 = 0 then [] else List.replicate spv 2) ++
        (if l 3 = 0 then [] else List.replicate spv 3)

/-! ## Report builder: clearance-time aggregation (app.py lines 171-177) -/

/-- The list comprehension at app.py line 173:
`[s["ambulance_time"] for s in totals if s["ambulance_time"]]` — keeps only
samples that are present and nonzero (Python truthiness). -/
def truthyClearances (rounds : List (Option ℚ)) : List ℚ :=
  rounds.filterMap fun o =>
    match o with
    | some q => if q = 0 then none else some q
    | none => none

/-- `pd.Series(xs).mean()`: the arithmetic mean of the samples, and NaN when
the series is empty.  The float NaN is modelled as `none`. -/
def seriesMean (xs : List ℚ) : Option ℚ :=
  if xs.isEmpty then none else some (xs.sum / xs.length)

/-- The value interpolated into the clearance line of the report (app.py
lines 173-177): the code formats `seriesMean` of the kept samples with
`"{:.2f}".format` unconditionally, so a `none` here is a NaN reaching the
displayed string as "nan". -/
def displayedAvgClearance (rounds : List (Option ℚ)) : Option ℚ :=
  seriesMean (truthyClearances rounds)

/-- The number of rendered frames (equivalently, of per-step delays) of a
finished run. -/
def framesCountOf (r : Option SimState) : Option ℕ :=
  r.map fun s => s.frames.length

/-- Invariant carried through the loop for the non-negativity claim: the
current counts and every rendered state are non-negative. -/
def NN (st : SimState) : Prop :=
  (∀ i, 0 ≤ st.lanes i) ∧ ∀ f ∈ st.frames, ∀ i, 0 ≤ f.lanes i

/-- Invariant carried through the loop for the clearance-time claim, for a
configured ambulance lane `a`: either no clearance time has been recorded
yet, `a` still holds vehicles and no rendered frame ever showed `a` empty,
or the recorded time is the first-clearing step converted by line 93. -/
def ClearInv (a : Fin 4) (delay : ℚ) (st : SimState) : Prop :=
  (st.ambTime = none ∧ 0 < st.lanes a ∧ ∀ f ∈ st.frames, f.lanes a ≠ 0) ∨
    ∃ t : ℕ, st.ambTime = some ((t : ℚ) * delay / 60) ∧
      firstClear a st.frames = some t

/-! ## Heap model for the copy at app.py line 57 -/

/-- A store of Python dict objects, addressed by identity. -/
def Heap : Type := ℕ → LaneState

/-- `simulate_round` as the caller sees it (app.py lines 56-107): the callee
executes `lanes = lanes_init.copy()`, allocating a fresh dict at `workAddr`
with the contents of the dict at `initAddr`, and every later mutation
(`lanes[lane] -= 1`) hits only the dict at `workAddr`. -/
def simulate_round_heap (h : Heap) (initAddr workAddr : ℕ) (spv : ℕ)
    (delay : ℚ) (strategy : String) (amb : Option (Fin 4)) (fuel : ℕ) :
    Heap × Option SimState :=
  let h1 : Heap := Function.update h workAddr (h initAddr)
  let r := runLoop strategy amb delay spv fuel (initState (h1 workAddr))
  (match r with
   | some st => Function.update h1 workAddr st.lanes
   | none => h1, r)

/-- A concrete one-car heap used to exercise the frame property. -/
def exHeap : Heap := fun _ => ![1, 0, 0, 0]

/-! ## Lemmas: one iteration of the inner loop -/

theorem stepOnce_lanes (amb : Option (Fin 4)) (delay : ℚ) (lane : Fin 4)
    (st : SimState) :
    (stepOnce amb delay lane st).lanes
      = if 0 < st.lanes lane
        then Function.update st.lanes lane (st.lanes lane - 1)
        else st.lanes := rfl

theorem stepOnce_total (amb : Option (Fin 4)) (delay : ℚ) (lane : Fin 4)
    (st : SimState) :
    (stepOnce amb delay lane st).total
      = if 0 < st.lanes lane then st.total + 1 else st.total := rfl

theorem stepOnce_ambTime (amb : Option (Fin 4)) (delay : ℚ) (lane : Fin 4)
    (st : SimState) :
    (stepOnce amb delay lane st).ambTime
      = if amb = some lane ∧ (stepOnce amb delay lane st).lanes lane = 0
            ∧ st.ambTime = none
        then some (((stepOnce amb delay lane st).total : ℚ) * delay / 60)
        else st.ambTime := rfl

theorem stepOnce_frames (amb : Option (Fin 4)) (delay : ℚ) (lane : Fin 4)
    (st : SimState) :
    (stepOnce amb delay lane st).frames
      = st.frames ++
          [{ lane := lane, moved := decide (0 < st.lanes lane),
             lanes := (stepOnce amb delay lane st).lanes,
             total := (stepOnce amb delay lane st).total }] := rfl

theorem stepOnce_lanes_ne (amb : Option (Fin 4)) (delay : ℚ) (lane : Fin 4)
    (st : SimState) (j : Fin 4) (hj : j ≠ lane) :
    (stepOnce amb delay lane st).lanes j = st.lanes j := by
  rw [stepOnce_lanes]
  by_cases h : 0 < st.lanes lane
  · rw [if_pos h, Function.update_noteq hj]
  · rw [if_neg h]

theorem stepOnce_lanes_self (amb : Option (Fin 4)) (delay : ℚ) (lane : Fin 4)
    (st : SimState) :
    (stepOnce amb delay lane st).lanes lane
      = if 0 < st.lanes lane then st.lanes lane - 1 else st.lanes lane := by
  rw [stepOnce_lanes]
  by_cases h : 0 < st.lanes lane
  · rw [if_pos h, if_pos h, Function.update_same]
  · rw [if_neg h, if_neg h]

/-! ## Lemmas: one serviced visit (the whole inner loop) -/

theorem serveLane_lanes_ne (amb : Option (Fin 4)) (delay : ℚ) (lane : Fin 4) :
    ∀ (n : ℕ) (st : SimState) (j : Fin 4), j ≠ lane →
      (serveLane amb delay lane n st).lanes j = st.lanes j := by
  intro n
  induction n with
  | zero => intro st j hj; rfl
  | succ n ih =>
    intro st j hj
    rw [serveLane, ih _ j hj, stepOnce_lanes_ne amb delay lane st j hj]

theorem serveLane_spec (amb : Option (Fin 4)) (delay : ℚ) (lane : Fin 4) :
    ∀ (n : ℕ) (st : SimState), 0 ≤ st.lanes lane →
      (serveLane amb delay lane n st).lanes lane
          = st.lanes lane - (min n (st.lanes lane).toNat : ℕ) ∧
        (serveLane amb delay lane n st).total
          = st.total + min n (st.lanes lane).toNat := by
  intro n
  induction n with
  | zero => intro st _; simp [serveLane]
  | succ n ih =>
    intro st h0
    rw [serveLane]
    have hl := stepOnce_lanes_self amb delay lane st
    have ht := stepOnce_total amb delay lane st
    by_cases h : 0 < st.lanes lane
    · rw [if_pos h] at hl ht
      obtain ⟨h1, h2⟩ := ih (stepOnce amb delay lane st) (by rw [hl]; omega)
      rw [h1, h2, hl, ht]
      omega
    · rw [if_neg h] at hl ht
      obtain ⟨h1, h2⟩ := ih (stepOnce amb delay lane st) (by rw [hl]; exact h0)
      rw [h1, h2, hl, ht]
      omega

theorem serveLane_frames (amb : Option (Fin 4)) (delay : ℚ) (lane : Fin 4) :
    ∀ (n : ℕ) (st : SimState), ∃ fs : List Frame,
      (serveLane amb delay lane n st).frames = st.frames ++ fs ∧
        fs.length = n ∧ ∀ f ∈ fs, f.lane = lane := by
  intro n
  induction n with
  | zero => intro st; exact ⟨[], by simp [serveLane], rfl, by simp⟩
  | succ n ih =>
    intro st
    rw [serveLane]
    obtain ⟨fs, hfs, hlen, hlane⟩ := ih (stepOnce amb delay lane st)
    refine ⟨{ lane := lane, moved := decide (0 < st.lanes lane),
              lanes := (stepOnce amb delay lane st).lanes,
              total := (stepOnce amb delay lane st).total } :: fs,
      ?_, by simp [hlen], ?_⟩
    · rw [hfs, stepOnce_frames]
      simp
    · intro f hf
      rcases List.mem_cons.mp hf with h | h
      · rw [h]
      · exact hlane f h

/-! ## Lemmas: lane-count sums -/

theorem sumL_eq_sum (l : LaneState) : sumL l = ∑ i : Fin 4, l i :=
  (Fin.sum_univ_four l).symm

theorem sumL_update (l : LaneState) (lane : Fin 4) (v : ℤ) :
    sumL (Function.update l lane v) = sumL l + v - l lane := by
  rw [sumL_eq_sum, sumL_eq_sum, Finset.sum_update_of_mem (Finset.mem_univ lane),
    Finset.sdiff_singleton_eq_erase, Finset.sum_erase_eq_sub (Finset.mem_univ lane)]
  ring

theorem stepOnce_sum (amb : Option (Fin 4)) (delay : ℚ) (lane : Fin 4)
    (st : SimState) :
    sumL (stepOnce amb delay lane st).lanes
      = if 0 < st.lanes lane then sumL st.lanes - 1 else sumL st.lanes := by
  rw [stepOnce_lanes]
  by_cases h : 0 < st.lanes lane
  · rw [if_pos h, if_pos h, sumL_update]
    ring
  · rw [if_neg h, if_neg h]

theorem serveLane_sum_total (amb : Option (Fin 4)) (delay : ℚ) (lane : Fin 4) :
    ∀ (n : ℕ) (st : SimState),
      ((serveLane amb delay lane n st).total : ℤ)
          + sumL (serveLane amb delay lane n st).lanes
        = st.total + sumL st.lanes := by
  intro n
  induction n with
  | zero => intro st; rfl
  | succ n ih =>
    intro st
    rw [serveLane, ih (stepOnce amb delay lane st), stepOnce_sum, stepOnce_total]
    by_cases h : 0 < st.lanes lane
    · rw [if_pos h, if_pos h]; push_cast; ring
    · rw [if_neg h, if_neg h]

theorem serveLane_lanes_nonneg (amb : Option (Fin 4)) (delay : ℚ) (lane : Fin 4)
    (n : ℕ) (st : SimState) (hn : ∀ i, 0 ≤ st.lanes i) :
    ∀ i, 0 ≤ (serveLane amb delay lane n st).lanes i := by
  intro i
  by_cases hi : i = lane
  · rw [hi, (serveLane_spec amb delay lane n st (hn lane)).1]
    have := hn lane
    omega
  · rw [serveLane_lanes_ne amb delay lane n st i hi]
    exact hn i

theorem serveLane_sum_le (amb : Option (Fin 4)) (delay : ℚ) (lane : Fin 4)
    (n : ℕ) (st : SimState) (h : 0 ≤ st.lanes lane) :
    sumL (serveLane amb delay lane n st).lanes ≤ sumL st.lanes := by
  have h1 := serveLane_sum_total amb delay lane n st
  have h2 := (serveLane_spec amb delay lane n st h).2
  omega

theorem serveLane_sum_lt (amb : Option (Fin 4)) (delay : ℚ) (lane : Fin 4)
    (n : ℕ) (st : SimState) (h : 0 < st.lanes lane) (hn : 0 < n) :
    sumL (serveLane amb delay lane n st).lanes < sumL st.lanes := by
  have h1 := serveLane_sum_total amb delay lane n st
  have h2 := (serveLane_spec amb delay lane n st (le_of_lt h)).2
  omega

/-! ## Lemmas: one element of the `for lane in lane_order` loop -/

theorem visit_lanes_ne (amb : Option (Fin 4)) (delay : ℚ) (spv : ℕ)
    (lane : Fin 4) (st : SimState) (j : Fin 4) (hj : j ≠ lane) :
    (visitIfNonzero amb delay spv lane st).lanes j = st.lanes j := by
  unfold visitIfNonzero
  split
  · rfl
  · exact serveLane_lanes_ne amb delay lane spv st j hj

theorem visit_lanes_nonneg (amb : Option (Fin 4)) (delay : ℚ) (spv : ℕ)
    (lane : Fin 4) (st : SimState) (hn : ∀ i, 0 ≤ st.lanes i) :
    ∀ i, 0 ≤ (visitIfNonzero amb delay spv lane st).lanes i := by
  unfold visitIfNonzero
  split
  · exact hn
  · exact serveLane_lanes_nonneg amb delay lane spv st hn

theorem visit_sum_total (amb : Option (Fin 4)) (delay : ℚ) (spv : ℕ)
    (lane : Fin 4) (st : SimState) :
    ((visitIfNonzero amb delay spv lane st).total : ℤ)
        + sumL (visitIfNonzero amb delay spv lane st).lanes
      = st.total + sumL st.lanes := by
  unfold visitIfNonzero
  split
  · rfl
  · exact serveLane_sum_total amb delay lane spv st

theorem visit_sum_le (amb : Option (Fin 4)) (delay : ℚ) (spv : ℕ)
    (lane : Fin 4) (st : SimState) (h : 0 ≤ st.lanes lane) :
    sumL (visitIfNonzero amb delay spv lane st).lanes ≤ sumL st.lanes := by
  unfold visitIfNonzero
  split
  · exact le_refl _
  · exact serveLane_sum_le amb delay lane spv st h

theorem visit_sum_lt (amb : Option (Fin 4)) (delay : ℚ) (spv : ℕ)
    (lane : Fin 4) (st : SimState) (h : 0 < st.lanes lane) (hspv : 0 < spv) :
    sumL (visitIfNonzero amb delay spv lane st).lanes < sumL st.lanes := by
  unfold visitIfNonzero
  rw [if_neg (by omega)]
  exact serveLane_sum_lt amb delay lane spv st h hspv

theorem visit_frames (amb : Option (Fin 4)) (delay : ℚ) (spv : ℕ)
    (lane : Fin 4) (st : SimState) :
    ∃ fs : List Frame,
      (visitIfNonzero amb delay spv lane st).frames = st.frames ++ fs ∧
        (st.lanes lane = 0 → fs = []) ∧
        (st.lanes lane ≠ 0 → fs.length = spv ∧ ∀ f ∈ fs, f.lane = lane) := by
  unfold visitIfNonzero
  by_cases h : st.lanes lane = 0
  · exact ⟨[], by rw [if_pos h]; simp, fun _ => rfl, fun hc => absurd h hc⟩
  · obtain ⟨fs, hfs, hlen, hl⟩ := serveLane_frames amb delay lane spv st
    exact ⟨fs, by rw [if_neg h]; exact hfs, fun hc => absurd hc h,
      fun _ => ⟨hlen, hl⟩⟩

/-! ## Lemmas: the quantum lane choice (app.py lines 67-72) -/

theorem maxLane_ge (l : LaneState) :
    l 0 ≤ l (maxLane l) ∧ l 1 ≤ l (maxLane l) ∧
      l 2 ≤ l (maxLane l) ∧ l 3 ≤ l (maxLane l) := by
  unfold maxLane pick
  split_ifs <;> omega

theorem quantumChoice_pos (amb : Option (Fin 4)) (l : LaneState)
    (hn : ∀ i, 0 ≤ l i) (hs : 0 < sumL l) : 0 < l (quantumChoice amb l) := by
  have hmax : 0 < l (maxLane l) := by
    obtain ⟨g0, g1, g2, g3⟩ := maxLane_ge l
    have h0 := hn 0
    have h1 := hn 1
    have h2 := hn 2
    have h3 := hn 3
    unfold sumL at hs
    omega
  cases amb with
  | none => exact hmax
  | some a =>
    show 0 < l (if 0 < l a then a else maxLane l)
    by_cases h : 0 < l a
    · rw [if_pos h]; exact h
    · rw [if_neg h]; exact hmax

/-! ## Lemmas: one `while` iteration -/

theorem normalSweep_lanes_nonneg (amb : Option (Fin 4)) (delay : ℚ) (spv : ℕ)
    (st : SimState) (hn : ∀ i, 0 ≤ st.lanes i) :
    ∀ i, 0 ≤ (normalSweep amb delay spv st).lanes i := by
  unfold normalSweep
  exact visit_lanes_nonneg amb delay spv 3 _
    (visit_lanes_nonneg amb delay spv 2 _
      (visit_lanes_nonneg amb delay spv 1 _
        (visit_lanes_nonneg amb delay spv 0 st hn)))

theorem normalSweep_sum_total (amb : Option (Fin 4)) (delay : ℚ) (spv : ℕ)
    (st : SimState) :
    ((normalSweep amb delay spv st).total : ℤ)
        + sumL (normalSweep amb delay spv st).lanes
      = st.total + sumL st.lanes := by
  unfold normalSweep
  have t0 := visit_sum_total amb delay spv 0 st
  have t1 := visit_sum_total amb delay spv 1 (visitIfNonzero amb delay spv 0 st)
  have t2 := visit_sum_total amb delay spv 2
    (visitIfNonzero amb delay spv 1 (visitIfNonzero amb delay spv 0 st))
  have t3 := visit_sum_total amb delay spv 3
    (visitIfNonzero amb delay spv 2
      (visitIfNonzero amb delay spv 1 (visitIfNonzero amb delay spv 0 st)))
  omega

theorem normalSweep_sum_lt (amb : Option (Fin 4)) (delay : ℚ) (spv : ℕ)
    (st : SimState) (hn : ∀ i, 0 ≤ st.lanes i) (hs : 0 < sumL st.lanes)
    (hspv : 0 < spv) :
    sumL (normalSweep amb delay spv st).lanes < sumL st.lanes := by
  have h0 := hn 0
  have h1 := hn 1
  have h2 := hn 2
  have h3 := hn 3
  have hpos : 0 < st.lanes 0 ∨ 0 < st.lanes 1 ∨ 0 < st.lanes 2 ∨ 0 < st.lanes 3 := by
    unfold sumL at hs
    omega
  unfold normalSweep
  set s1 := visitIfNonzero amb delay spv 0 st with hs1
  set s2 := visitIfNonzero amb delay spv 1 s1 with hs2
  set s3 := visitIfNonzero amb delay spv 2 s2 with hs3
  have n1 : ∀ i, 0 ≤ s1.lanes i := visit_lanes_nonneg amb delay spv 0 st hn
  have n2 : ∀ i, 0 ≤ s2.lanes i := visit_lanes_nonneg amb delay spv 1 s1 n1
  have n3 : ∀ i, 0 ≤ s3.lanes i := visit_lanes_nonneg amb delay spv 2 s2 n2
  have le4 : sumL (visitIfNonzero amb delay spv 3 s3).lanes ≤ sumL s3.lanes :=
    visit_sum_le amb delay spv 3 s3 (n3 3)
  have le3 : sumL s3.lanes ≤ sumL s2.lanes := visit_sum_le amb delay spv 2 s2 (n2 2)
  have le2 : sumL s2.lanes ≤ sumL s1.lanes := visit_sum_le amb delay spv 1 s1 (n1 1)
  have le1 : sumL s1.lanes ≤ sumL st.lanes := visit_sum_le amb delay spv 0 st (hn 0)
  rcases hpos with h | h | h | h
  · have hlt : sumL s1.lanes < sumL st.lanes := visit_sum_lt amb delay spv 0 st h hspv
    omega
  · have k1 : s1.lanes 1 = st.lanes 1 := visit_lanes_ne amb delay spv 0 st 1 (by decide)
    have hlt : sumL s2.lanes < sumL s1.lanes :=
      visit_sum_lt amb delay spv 1 s1 (by rw [k1]; exact h) hspv
    omega
  · have k1 : s1.lanes 2 = st.lanes 2 := visit_lanes_ne amb delay spv 0 st 2 (by decide)
    have k2 : s2.lanes 2 = s1.lanes 2 := visit_lanes_ne amb delay spv 1 s1 2 (by decide)
    have hlt : sumL s3.lanes < sumL s2.lanes :=
      visit_sum_lt amb delay spv 2 s2 (by rw [k2, k1]; exact h) hspv
    omega
  · have k1 : s1.lanes 3 = st.lanes 3 := visit_lanes_ne amb delay spv 0 st 3 (by decide)
    have k2 : s2.lanes 3 = s1.lanes 3 := visit_lanes_ne amb delay spv 1 s1 3 (by decide)
    have k3 : s3.lanes 3 = s2.lanes 3 := visit_lanes_ne amb delay spv 2 s2 3 (by decide)
    have hlt : sumL (visitIfNonzero amb delay spv 3 s3).lanes < sumL s3.lanes :=
      visit_sum_lt amb delay spv 3 s3 (by rw [k3, k2, k1]; exact h) hspv
    omega

theorem quantumBody_lanes_nonneg (amb : Option (Fin 4)) (delay : ℚ) (spv : ℕ)
    (st : SimState) (hn : ∀ i, 0 ≤ st.lanes i) :
    ∀ i, 0 ≤ (quantumBody amb delay spv st).lanes i :=
  visit_lanes_nonneg amb delay spv _ st hn

theorem quantumBody_sum_total (amb : Option (Fin 4)) (delay : ℚ) (spv : ℕ)
    (st : SimState) :
    ((quantumBody amb delay spv st).total : ℤ)
        + sumL (quantumBody amb delay spv st).lanes
      = st.total + sumL st.lanes :=
  visit_sum_total amb delay spv _ st

theorem quantumBody_sum_lt (amb : Option (Fin 4)) (delay : ℚ) (spv : ℕ)
    (st : SimState) (hn : ∀ i, 0 ≤ st.lanes i) (hs : 0 < sumL st.lanes)
    (hspv : 0 < spv) :
    sumL (quantumBody amb delay spv st).lanes < sumL st.lanes :=
  visit_sum_lt amb delay spv _ st (quantumChoice_pos amb st.lanes hn hs) hspv

theorem loopBody_lanes_nonneg (strategy : String) (amb : Option (Fin 4))
    (delay : ℚ) (spv : ℕ) (st : SimState) (hn : ∀ i, 0 ≤ st.lanes i) :
    ∀ i, 0 ≤ (loopBody strategy amb delay spv st).lanes i := by
  unfold loopBody
  by_cases h : strategy = "normal"
  · rw [if_pos h]; exact normalSweep_lanes_nonneg amb delay spv st hn
  · rw [if_neg h]; exact quantumBody_lanes_nonneg amb delay spv st hn

theorem loopBody_sum_total (strategy : String) (amb : Option (Fin 4))
    (delay : ℚ) (spv : ℕ) (st : SimState) :
    ((loopBody strategy amb delay spv st).total : ℤ)
        + sumL (loopBody strategy amb delay spv st).lanes
      = st.total + sumL st.lanes := by
  unfold loopBody
  by_cases h : strategy = "normal"
  · rw [if_pos h]; exact normalSweep_sum_total amb delay spv st
  · rw [if_neg h]; exact quantumBody_sum_total amb delay spv st

theorem loopBody_sum_lt (strategy : String) (amb : Option (Fin 4))
    (delay : ℚ) (spv : ℕ) (st : SimState) (hn : ∀ i, 0 ≤ st.lanes i)
    (hs : 0 < sumL st.lanes) (hspv : 0 < spv) :
    sumL (loopBody strategy amb delay spv st).lanes < sumL st.lanes := by
  unfold loopBody
  by_cases h : strategy = "normal"
  · rw [if_pos h]; exact normalSweep_sum_lt amb delay spv st hn hs hspv
  · rw [if_neg h]; exact quantumBody_sum_lt amb delay spv st hn hs hspv

/-! ## Lemmas: the `while` loop -/

theorem runLoop_inv (strategy : String) (amb : Option (Fin 4)) (delay : ℚ)
    (spv : ℕ) (Inv : SimState → Prop)
    (hbody : ∀ st, 0 < sumL st.lanes → Inv st →
      Inv (loopBody strategy amb delay spv st)) :
    ∀ (fuel : ℕ) (st st' : SimState), Inv st →
      runLoop strategy amb delay spv fuel st = some st' → Inv st' := by
  intro fuel
  induction fuel with
  | zero =>
    intro st st' hInv hrun
    rw [runLoop] at hrun
    by_cases hs : 0 < sumL st.lanes
    · rw [if_pos hs] at hrun
      exact Option.noConfusion hrun
    · rw [if_neg hs] at hrun
      exact Option.some.inj hrun ▸ hInv
  | succ fuel ih =>
    intro st st' hInv hrun
    rw [runLoop] at hrun
    by_cases hs : 0 < sumL st.lanes
    · rw [if_pos hs] at hrun
      exact ih _ _ (hbody st hs hInv) hrun
    · rw [if_neg hs] at hrun
      exact Option.some.inj hrun ▸ hInv

theorem runLoop_drain (strategy : String) (amb : Option (Fin 4)) (delay : ℚ)
    (spv : ℕ) (hspv : 0 < spv) :
    ∀ (fuel : ℕ) (st : SimState), (∀ i, 0 ≤ st.lanes i) →
      (sumL st.lanes).toNat ≤ fuel →
      ∃ st', runLoop strategy amb delay spv fuel st = some st' ∧
        (st'.total : ℤ) = st.total + sumL st.lanes ∧ ∀ i, st'.lanes i = 0 := by
  intro fuel
  induction fuel with
  | zero =>
    intro st hn hf
    have h0 := hn 0
    have h1 := hn 1
    have h2 := hn 2
    have h3 := hn 3
    have z0 : st.lanes 0 = 0 := by unfold sumL at hf; omega
    have z1 : st.lanes 1 = 0 := by unfold sumL at hf; omega
    have z2 : st.lanes 2 = 0 := by unfold sumL at hf; omega
    have z3 : st.lanes 3 = 0 := by unfold sumL at hf; omega
    refine ⟨st, ?_, by unfold sumL; omega, ?_⟩
    · rw [runLoop, if_neg (by unfold sumL; omega)]
    · intro i
      fin_cases i <;> assumption
  | succ fuel ih =>
    intro st hn hf
    by_cases hs : 0 < sumL st.lanes
    · have hnn := loopBody_lanes_nonneg strategy amb delay spv st hn
      have hts := loopBody_sum_total strategy amb delay spv st
      have hlt := loopBody_sum_lt strategy amb delay spv st hn hs hspv
      obtain ⟨st', hrun, htot, hdrain⟩ :=
        ih (loopBody strategy amb delay spv st) hnn (by omega)
      refine ⟨st', ?_, by omega, hdrain⟩
      rw [runLoop, if_pos hs]
      exact hrun
    · have h0 := hn 0
      have h1 := hn 1
      have h2 := hn 2
      have h3 := hn 3
      have z0 : st.lanes 0 = 0 := by unfold sumL at hs; omega
      have z1 : st.lanes 1 = 0 := by unfold sumL at hs; omega
      have z2 : st.lanes 2 = 0 := by unfold sumL at hs; omega
      have z3 : st.lanes 3 = 0 := by unfold sumL at hs; omega
      refine ⟨st, by rw [runLoop, if_neg hs], by unfold sumL; omega, ?_⟩
      intro i
      fin_cases i <;> assumption

/-! ## Lemmas: the clearance-time record (app.py lines 91-93) -/

theorem stepOnce_ambTime_of_ne (amb : Option (Fin 4)) (delay : ℚ) (lane : Fin 4)
    (st : SimState) (h : ∀ x, amb = some x → x ≠ lane) :
    (stepOnce amb delay lane st).ambTime = st.ambTime := by
  rw [stepOnce_ambTime, if_neg]
  rintro ⟨h1, -, -⟩
  cases amb with
  | none => exact Option.noConfusion h1
  | some x => exact h x rfl (Option.some.inj h1)

theorem serveLane_ambTime_of_ne (amb : Option (Fin 4)) (delay : ℚ) (lane : Fin 4) :
    ∀ (n : ℕ) (st : SimState), (∀ x, amb = some x → x ≠ lane) →
      (serveLane amb delay lane n st).ambTime = st.ambTime := by
  intro n
  induction n with
  | zero => intro st _; rfl
  | succ n ih =>
    intro st h
    rw [serveLane, ih _ h, stepOnce_ambTime_of_ne amb delay lane st h]

theorem firstClear_append_zero (a : Fin 4) (fs : List Frame) (f : Frame)
    (hfs : ∀ g ∈ fs, g.lanes a ≠ 0) (hf : f.lanes a = 0) :
    firstClear a (fs ++ [f]) = some f.total := by
  unfold firstClear
  rw [List.find?_append, List.find?_eq_none.mpr (fun g hg => by simpa using hfs g hg)]
  simp [List.find?, hf]

theorem firstClear_append_of_some (a : Fin 4) (fs more : List Frame) (t : ℕ)
    (h : firstClear a fs = some t) : firstClear a (fs ++ more) = some t := by
  unfold firstClear at h ⊢
  obtain ⟨f, hfind, hft⟩ := Option.map_eq_some'.mp h
  rw [List.find?_append, hfind]
  simp [hft]

theorem stepOnce_clearInv (a : Fin 4) (delay : ℚ) (lane : Fin 4) (st : SimState)
    (h : ClearInv a delay st) :
    ClearInv a delay (stepOnce (some a) delay lane st) := by
  rcases h with ⟨hA, hPos, hF⟩ | ⟨t, hA, hFC⟩
  · by_cases hl : lane = a
    · cases hl
      have hlanes := stepOnce_lanes_self (some a) delay a st
      rw [if_pos hPos] at hlanes
      by_cases hz : st.lanes a - 1 = 0
      · right
        refine ⟨(stepOnce (some a) delay a st).total, ?_, ?_⟩
        · rw [stepOnce_ambTime, if_pos ⟨rfl, by rw [hlanes]; exact hz, hA⟩]
        · rw [stepOnce_frames]
          refine firstClear_append_zero a st.frames _ hF ?_
          show (stepOnce (some a) delay a st).lanes a = 0
          rw [hlanes]
          exact hz
      · left
        refine ⟨?_, by rw [hlanes]; omega, ?_⟩
        · rw [stepOnce_ambTime, if_neg]
          · exact hA
          · rintro ⟨-, hc, -⟩
            rw [hlanes] at hc
            exact hz hc
        · intro f hf
          rw [stepOnce_frames] at hf
          rcases List.mem_append.mp hf with hf | hf
          · exact hF f hf
          · rcases List.mem_singleton.mp hf with rfl
            show (stepOnce (some a) delay a st).lanes a ≠ 0
            rw [hlanes]
            exact hz
    · left
      have hne : ∀ x, (some a : Option (Fin 4)) = some x → x ≠ lane := by
        rintro x hx
        cases Option.some.inj hx
        exact fun he => hl he.symm
      have hkeep : (stepOnce (some a) delay lane st).lanes a = st.lanes a :=
        stepOnce_lanes_ne (some a) delay lane st a (fun he => hl he.symm)
      refine ⟨?_, by rw [hkeep]; exact hPos, ?_⟩
      · rw [stepOnce_ambTime_of_ne (some a) delay lane st hne]
        exact hA
      · intro f hf
        rw [stepOnce_frames] at hf
        rcases List.mem_append.mp hf with hf | hf
        · exact hF f hf
        · rcases List.mem_singleton.mp hf with rfl
          show (stepOnce (some a) delay lane st).lanes a ≠ 0
          rw [hkeep]
          omega
  · right
    refine ⟨t, ?_, ?_⟩
    · rw [stepOnce_ambTime, if_neg]
      · exact hA
      · rintro ⟨-, -, hc⟩
        rw [hA] at hc
        exact Option.noConfusion hc
    · rw [stepOnce_frames]
      exact firstClear_append_of_some a st.frames _ t hFC

theorem serveLane_clearInv (a : Fin 4) (delay : ℚ) (lane : Fin 4) :
    ∀ (n : ℕ) (st : SimState), ClearInv a delay st →
      ClearInv a delay (serveLane (some a) delay lane n st) := by
  intro n
  induction n with
  | zero => intro st h; exact h
  | succ n ih =>
    intro st h
    rw [serveLane]
    exact ih _ (stepOnce_clearInv a delay lane st h)

theorem visit_clearInv (a : Fin 4) (delay : ℚ) (spv : ℕ) (lane : Fin 4)
    (st : SimState) (h : ClearInv a delay st) :
    ClearInv a delay (visitIfNonzero (some a) delay spv lane st) := by
  unfold visitIfNonzero
  split
  · exact h
  · exact serveLane_clearInv a delay lane spv st h

theorem loopBody_clearInv (strategy : String) (a : Fin 4) (delay : ℚ) (spv : ℕ)
    (st : SimState) (h : ClearInv a delay st) :
    ClearInv a delay (loopBody strategy (some a) delay spv st) := by
  unfold loopBody
  by_cases hstrat : strategy = "normal"
  · rw [if_pos hstrat]
    exact visit_clearInv a delay spv 3 _
      (visit_clearInv a delay spv 2 _
        (visit_clearInv a delay spv 1 _
          (visit_clearInv a delay spv 0 st h)))
  · rw [if_neg hstrat]
    exact visit_clearInv a delay spv _ st h

theorem visit_ambNone (delay : ℚ) (spv : ℕ) (lane : Fin 4) (st : SimState)
    (h : st.ambTime = none) :
    (visitIfNonzero none delay spv lane st).ambTime = none := by
  unfold visitIfNonzero
  split
  · exact h
  · rw [serveLane_ambTime_of_ne none delay lane spv st
      (fun x hx => Option.noConfusion hx)]
    exact h

theorem loopBody_ambNone (strategy : String) (delay : ℚ) (spv : ℕ)
    (st : SimState) (h : st.ambTime = none) :
    (loopBody strategy none delay spv st).ambTime = none := by
  unfold loopBody
  by_cases hstrat : strategy = "normal"
  · rw [if_pos hstrat]
    exact visit_ambNone delay spv 3 _
      (visit_ambNone delay spv 2 _
        (visit_ambNone delay spv 1 _
          (visit_ambNone delay spv 0 st h)))
  · rw [if_neg hstrat]
    exact visit_ambNone delay spv _ st h

theorem visit_zeroAmb (a : Fin 4) (delay : ℚ) (spv : ℕ) (lane : Fin 4)
    (st : SimState) (h : st.ambTime = none ∧ st.lanes a = 0) :
    (visitIfNonzero (some a) delay spv lane st).ambTime = none ∧
      (visitIfNonzero (some a) delay spv lane st).lanes a = 0 := by
  by_cases hl : lane = a
  · cases hl
    unfold visitIfNonzero
    rw [if_pos h.2]
    exact h
  · unfold visitIfNonzero
    split
    · exact h
    · have hne : ∀ x, (some a : Option (Fin 4)) = some x → x ≠ lane := by
        rintro x hx
        cases Option.some.inj hx
        exact fun he => hl he.symm
      exact ⟨by rw [serveLane_ambTime_of_ne (some a) delay lane spv st hne]; exact h.1,
        by rw [serveLane_lanes_ne (some a) delay lane spv st a
          (fun he => hl he.symm)]; exact h.2⟩

theorem loopBody_zeroAmb (strategy : String) (a : Fin 4) (delay : ℚ) (spv : ℕ)
    (st : SimState) (h : st.ambTime = none ∧ st.lanes a = 0) :
    (loopBody strategy (some a) delay spv st).ambTime = none ∧
      (loopBody strategy (some a) delay spv st).lanes a = 0 := by
  unfold loopBody
  by_cases hstrat : strategy = "normal"
  · rw [if_pos hstrat]
    exact visit_zeroAmb a delay spv 3 _
      (visit_zeroAmb a delay spv 2 _
        (visit_zeroAmb a delay spv 1 _
          (visit_zeroAmb a delay spv 0 st h)))
  · rw [if_neg hstrat]
    exact visit_zeroAmb a delay spv _ st h

/-! ## Lemmas: refinement of the spec-side descriptions -/

theorem maxLane_eq_spec (l : LaneState) :
    maxLane l
      = (if l 1 ≤ l 0 ∧ l 2 ≤ l 0 ∧ l 3 ≤ l 0 then 0
         else if l 2 ≤ l 1 ∧ l 3 ≤ l 1 then 1
         else if l 3 ≤ l 2 then 2
         else (3 : Fin 4)) := by
  unfold maxLane pick
  split_ifs <;> first | rfl | (exfalso; omega)

theorem quantumChoice_eq_spec (amb : Option (Fin 4)) (l : LaneState) :
    quantumChoice amb l = specQuantumChoice amb l := by
  cases amb with
  | none =>
    show maxLane l
        = (if l 1 ≤ l 0 ∧ l 2 ≤ l 0 ∧ l 3 ≤ l 0 then 0
           else if l 2 ≤ l 1 ∧ l 3 ≤ l 1 then 1
           else if l 3 ≤ l 2 then 2
           else (3 : Fin 4))
    exact maxLane_eq_spec l
  | some a =>
    show (if 0 < l a then a else maxLane l)
        = (if 0 < l a then a
           else if l 1 ≤ l 0 ∧ l 2 ≤ l 0 ∧ l 3 ≤ l 0 then 0
           else if l 2 ≤ l 1 ∧ l 3 ≤ l 1 then 1
           else if l 3 ≤ l 2 then 2
           else (3 : Fin 4))
    rw [maxLane_eq_spec]

theorem visit_newFrameLanes_replicate (amb : Option (Fin 4)) (delay : ℚ)
    (spv : ℕ) (lane : Fin 4) (st : SimState) (hpos : 0 < st.lanes lane) :
    newFrameLanes st.frames.length (visitIfNonzero amb delay spv lane st)
      = List.replicate spv lane := by
  obtain ⟨fs, hfs, hzero, hnz⟩ := visit_frames amb delay spv lane st
  obtain ⟨hlen, hl⟩ := hnz (by omega)
  unfold newFrameLanes
  rw [hfs, List.drop_left]
  refine List.eq_replicate_iff.mpr ⟨by rw [List.length_map, hlen], ?_⟩
  intro b hb
  obtain ⟨f, hf, rfl⟩ := List.mem_map.mp hb
  exact hl f hf

theorem normalSweep_frames (amb : Option (Fin 4)) (delay : ℚ) (spv : ℕ)
    (st : SimState) :
    newFrameLanes st.frames.length (normalSweep amb delay spv st)
      = specSweepLanes st.lanes spv := by
  unfold newFrameLanes normalSweep
  obtain ⟨fs0, h0, z0, n0⟩ := visit_frames amb delay spv 0 st
  set s1 := visitIfNonzero amb delay spv 0 st with hs1
  obtain ⟨fs1, h1, z1, n1⟩ := visit_frames amb delay spv 1 s1
  set s2 := visitIfNonzero amb delay spv 1 s1 with hs2
  obtain ⟨fs2, h2, z2, n2⟩ := visit_frames amb delay spv 2 s2
  set s3 := visitIfNonzero amb delay spv 2 s2 with hs3
  obtain ⟨fs3, h3, z3, n3⟩ := visit_frames amb delay spv 3 s3
  have k1 : s1.lanes 1 = st.lanes 1 := visit_lanes_ne amb delay spv 0 st 1 (by decide)
  have k2 : s2.lanes 2 = st.lanes 2 := by
    rw [hs2, visit_lanes_ne amb delay spv 1 s1 2 (by decide),
      hs1, visit_lanes_ne amb delay spv 0 st 2 (by decide)]
  have k3 : s3.lanes 3 = st.lanes 3 := by
    rw [hs3, visit_lanes_ne amb delay spv 2 s2 3 (by decide),
      hs2, visit_lanes_ne amb delay spv 1 s1 3 (by decide),
      hs1, visit_lanes_ne amb delay spv 0 st 3 (by decide)]
  have seg0 : fs0.map Frame.lane
      = (if st.lanes 0 = 0 then [] else List.replicate spv 0) := by
    by_cases h : st.lanes 0 = 0
    · rw [if_pos h, z0 h]; rfl
    · rw [if_neg h]
      obtain ⟨hlen, hl⟩ := n0 h
      refine List.eq_replicate_iff.mpr ⟨by rw [List.length_map, hlen], ?_⟩
      intro b hb
      obtain ⟨f, hf, rfl⟩ := List.mem_map.mp hb
      exact hl f hf
  have seg1 : fs1.map Frame.lane
      = (if st.lanes 1 = 0 then [] else List.replicate spv 1) := by
    by_cases h : st.lanes 1 = 0
    · rw [if_pos h, z1 (by rw [k1]; exact h)]; rfl
    · rw [if_neg h]
      obtain ⟨hlen, hl⟩ := n1 (by rw [k1]; exact h)
      refine List.eq_replicate_iff.mpr ⟨by rw [List.length_map, hlen], ?_⟩
      intro b hb
      obtain ⟨f, hf, rfl⟩ := List.mem_map.mp hb
      exact hl f hf
  have seg2 : fs2.map Frame.lane
      = (if st.lanes 2 = 0 then [] else List.replicate spv 2) := by
    by_cases h : st.lanes 2 = 0
    · rw [if_pos h, z2 (by rw [k2]; exact h)]; rfl
    · rw [if_neg h]
      obtain ⟨hlen, hl⟩ := n2 (by rw [k2]; exact h)
      refine List.eq_replicate_iff.mpr ⟨by rw [List.length_map, hlen], ?_⟩
      intro b hb
      obtain ⟨f, hf, rfl⟩ := List.mem_map.mp hb
      exact hl f hf
  have seg3 : fs3.map Frame.lane
      = (if st.lanes 3 = 0 then [] else List.replicate spv 3) := by
    by_cases h : st.lanes 3 = 0
    · rw [if_pos h, z3 (by rw [k3]; exact h)]; rfl
    · rw [if_neg h]
      obtain ⟨hlen, hl⟩ := n3 (by rw [k3]; exact h)
      refine List.eq_replicate_iff.mpr ⟨by rw [List.length_map, hlen], ?_⟩
      intro b hb
      obtain ⟨f, hf, rfl⟩ := List.mem_map.mp hb
      exact hl f hf
  rw [h3, h2, h1, h0]
  simp only [List.append_assoc]
  rw [List.drop_left]
  simp only [List.map_append]
  rw [seg0, seg1, seg2, seg3]
  unfold specSweepLanes
  simp [List.append_assoc]

/-! # Claim theorems -/

/-- C1: for every non-negative initial lane state with total count T, the
scheduling loop of `simulate_round` under both the normal and the quantum
strategy terminates within T iterations, performs exactly T single-unit
decrements — its final `total_steps` equals T, so both strategies report
the same total step count — and leaves every lane's count at 0. -/
theorem C1_total_drain (lanes0 : LaneState) (spv : ℕ) (amb : Option (Fin 4))
    (delay : ℚ) (hn : laneNonneg lanes0) (hspv : 0 < spv) :
    totalOf (runRound "normal" lanes0 spv amb delay) = some (sumL lanes0).toNat
      ∧ totalOf (runRound "quantum" lanes0 spv amb delay)
          = some (sumL lanes0).toNat
      ∧ drained (runRound "normal" lanes0 spv amb delay)
      ∧ drained (runRound "quantum" lanes0 spv amb delay) := by
  have key : ∀ strategy : String,
      totalOf (runRound strategy lanes0 spv amb delay) = some (sumL lanes0).toNat
        ∧ drained (runRound strategy lanes0 spv amb delay) := by
    intro strategy
    obtain ⟨st', hrun, htot, hdr⟩ := runLoop_drain strategy amb delay spv hspv
      (sumL lanes0).toNat (initState lanes0) hn (le_refl _)
    have hge : 0 ≤ sumL lanes0 := by
      have g0 := hn 0
      have g1 := hn 1
      have g2 := hn 2
      have g3 := hn 3
      unfold sumL
      omega
    simp only [initState] at htot
    unfold runRound
    rw [hrun]
    refine ⟨?_, hdr⟩
    show some st'.total = some (sumL lanes0).toNat
    congr 1
    omega
  exact ⟨(key "normal").1, (key "quantum").1, (key "normal").2, (key "quantum").2⟩

/-- Witness for C1 at the concrete state UP:1, RIGHT:2, DOWN:0, LEFT:1. -/
theorem C1_total_drain_witness :
    laneNonneg ![1, 2, 0, 1] ∧ 0 < 3 ∧
      (totalOf (runRound "normal" ![1, 2, 0, 1] 3 none (1 / 2))
          = some (sumL ![1, 2, 0, 1]).toNat
        ∧ totalOf (runRound "quantum" ![1, 2, 0, 1] 3 none (1 / 2))
            = some (sumL ![1, 2, 0, 1]).toNat
        ∧ drained (runRound "normal" ![1, 2, 0, 1] 3 none (1 / 2))
        ∧ drained (runRound "quantum" ![1, 2, 0, 1] 3 none (1 / 2))) :=
  ⟨by decide, by decide,
    C1_total_drain ![1, 2, 0, 1] 3 none (1 / 2) (by decide) (by decide)⟩

/-- C2: in the quantum strategy each `while` iteration services exactly one
lane for its whole per-visit quota of frames: the configured priority lane
unconditionally whenever its count is positive — even if another lane has a
larger count — otherwise the lane with the currently largest count, ties
resolved to the smallest lane index (`specQuantumChoice` is the spec-side
wording of that rule), and the loop then re-evaluates the choice before the
next visit. -/
theorem C2_quantum_choice (amb : Option (Fin 4)) (delay : ℚ) (spv : ℕ)
    (st : SimState) (n : ℕ) (hn : laneNonneg st.lanes)
    (hs : 0 < sumL st.lanes) :
    newFrameLanes st.frames.length (quantumBody amb delay spv st)
        = List.replicate spv (specQuantumChoice amb st.lanes)
      ∧ runLoop "quantum" amb delay spv (n + 1) st
        = runLoop "quantum" amb delay spv n (quantumBody amb delay spv st) := by
  constructor
  · unfold quantumBody
    rw [← quantumChoice_eq_spec]
    exact visit_newFrameLanes_replicate amb delay spv _ st
      (quantumChoice_pos amb st.lanes hn hs)
  · rw [runLoop, if_pos hs]
    unfold loopBody
    rw [if_neg (by decide)]

/-- Witness for C2: priority lane RIGHT with count 1 is serviced even though
UP holds 3 vehicles. -/
theorem C2_quantum_choice_witness :
    laneNonneg (initState ![3, 1, 0, 0]).lanes
      ∧ 0 < sumL (initState ![3, 1, 0, 0]).lanes
      ∧ (newFrameLanes (initState ![3, 1, 0, 0]).frames.length
            (quantumBody (some 1) (1 / 2) 3 (initState ![3, 1, 0, 0]))
          = List.replicate 3 (specQuantumChoice (some 1) (initState ![3, 1, 0, 0]).lanes)
        ∧ runLoop "quantum" (some 1) (1 / 2) 3 (5 + 1) (initState ![3, 1, 0, 0])
          = runLoop "quantum" (some 1) (1 / 2) 3 5
              (quantumBody (some 1) (1 / 2) 3 (initState ![3, 1, 0, 0]))) :=
  ⟨by decide, by decide,
    C2_quantum_choice (some 1) (1 / 2) 3 (initState ![3, 1, 0, 0]) 5
      (by decide) (by decide)⟩

/-- C9: under the normal strategy every `while` iteration is one full sweep
over the lanes in the fixed order UP, RIGHT, DOWN, LEFT regardless of the
counts: a lane whose count is 0 at its turn is skipped without rendering a
frame, a non-empty lane is serviced for the full per-visit quota before the
sweep moves to the next lane (`specSweepLanes` is the spec-side wording),
and the loop repeats such sweeps. -/
theorem C9_normal_order (amb : Option (Fin 4)) (delay : ℚ) (spv : ℕ)
    (st : SimState) (n : ℕ) (hs : 0 < sumL st.lanes) :
    newFrameLanes st.frames.length (normalSweep amb delay spv st)
        = specSweepLanes st.lanes spv
      ∧ runLoop "normal" amb delay spv (n + 1) st
        = runLoop "normal" amb delay spv n (normalSweep amb delay spv st) := by
  refine ⟨normalSweep_frames amb delay spv st, ?_⟩
  rw [runLoop, if_pos hs]
  unfold loopBody
  rw [if_pos rfl]

/-- Witness for C9 at the concrete state UP:5, RIGHT:0, DOWN:2, LEFT:1. -/
theorem C9_normal_order_witness :
    0 < sumL (initState ![5, 0, 2, 1]).lanes
      ∧ (newFrameLanes (initState ![5, 0, 2, 1]).frames.length
            (normalSweep none (1 / 2) 3 (initState ![5, 0, 2, 1]))
          = specSweepLanes (initState ![5, 0, 2, 1]).lanes 3
        ∧ runLoop "normal" none (1 / 2) 3 (2 + 1) (initState ![5, 0, 2, 1])
          = runLoop "normal" none (1 / 2) 3 2
              (normalSweep none (1 / 2) 3 (initState ![5, 0, 2, 1]))) :=
  ⟨by decide, C9_normal_order none (1 / 2) 3 (initState ![5, 0, 2, 1]) 2 (by decide)⟩

/-! ## Lemmas: non-negativity of all rendered states -/

theorem stepOnce_lanes_nonneg (amb : Option (Fin 4)) (delay : ℚ) (lane : Fin 4)
    (st : SimState) (h1 : ∀ i, 0 ≤ st.lanes i) :
    ∀ i, 0 ≤ (stepOnce amb delay lane st).lanes i := by
  intro i
  by_cases hi : i = lane
  · rw [hi, stepOnce_lanes_self]
    have := h1 lane
    split_ifs <;> omega
  · rw [stepOnce_lanes_ne amb delay lane st i hi]
    exact h1 i

theorem stepOnce_NN (amb : Option (Fin 4)) (delay : ℚ) (lane : Fin 4)
    (st : SimState) (h : NN st) : NN (stepOnce amb delay lane st) := by
  refine ⟨stepOnce_lanes_nonneg amb delay lane st h.1, ?_⟩
  intro f hf
  rw [stepOnce_frames] at hf
  rcases List.mem_append.mp hf with hf | hf
  · exact h.2 f hf
  · rcases List.mem_singleton.mp hf with rfl
    exact stepOnce_lanes_nonneg amb delay lane st h.1

theorem serveLane_NN (amb : Option (Fin 4)) (delay : ℚ) (lane : Fin 4) :
    ∀ (n : ℕ) (st : SimState), NN st → NN (serveLane amb delay lane n st) := by
  intro n
  induction n with
  | zero => intro st h; exact h
  | succ n ih =>
    intro st h
    rw [serveLane]
    exact ih _ (stepOnce_NN amb delay lane st h)

theorem visit_NN (amb : Option (Fin 4)) (delay : ℚ) (spv : ℕ) (lane : Fin 4)
    (st : SimState) (h : NN st) : NN (visitIfNonzero amb delay spv lane st) := by
  unfold visitIfNonzero
  split
  · exact h
  · exact serveLane_NN amb delay lane spv st h

theorem loopBody_NN (strategy : String) (amb : Option (Fin 4)) (delay : ℚ)
    (spv : ℕ) (st : SimState) (h : NN st) :
    NN (loopBody strategy amb delay spv st) := by
  unfold loopBody
  by_cases hstrat : strategy = "normal"
  · rw [if_pos hstrat]
    exact visit_NN amb delay spv 3 _
      (visit_NN amb delay spv 2 _
        (visit_NN amb delay spv 1 _
          (visit_NN amb delay spv 0 st h)))
  · rw [if_neg hstrat]
    exact visit_NN amb delay spv _ st h

/-! ## Heap frame lemma -/

theorem simulate_round_heap_frame (h : Heap) (i w : ℕ) (spv : ℕ) (delay : ℚ)
    (strategy : String) (amb : Option (Fin 4)) (fuel : ℕ) (hw : w ≠ i) :
    (simulate_round_heap h i w spv delay strategy amb fuel).1 i = h i
      ∧ (simulate_round_heap h i w spv delay strategy amb fuel).2
          = runLoop strategy amb delay spv fuel (initState (h i)) := by
  simp only [simulate_round_heap, Function.update_same]
  constructor
  · cases hr : runLoop strategy amb delay spv fuel (initState (h i)) with
    | none =>
      show Function.update h w (h i) i = h i
      rw [Function.update_noteq (Ne.symm hw)]
    | some st' =>
      show Function.update (Function.update h w (h i)) w st'.lanes i = h i
      rw [Function.update_noteq (Ne.symm hw), Function.update_noteq (Ne.symm hw)]
  · trivial

/-! ## Claim theorems (continued) -/

/-- C3 counterexample: for UP:5, RIGHT:2, DOWN:0, LEFT:3 with quota 3 and no
priority lane, the quantum decrement trace is not the claimed
UP,UP,UP,UP,UP,LEFT,LEFT,LEFT,RIGHT,RIGHT — the second visit does not go to
UP again. -/
theorem C3_counterexample :
    ¬ movedLanes (runRound "quantum" ![5, 2, 0, 3] 3 none (1 / 2))
        = [0, 0, 0, 0, 0, 3, 3, 3, 1, 1] := by decide

/-- C3 amended: after UP is serviced for 3 units it holds 2 while LEFT holds
3, so LEFT is the unique maximum and is serviced second; the sequence of
serviced visits is UP for 3 units, then LEFT for 3 units, then UP for 2
units (tie with RIGHT at 2, smallest index wins), then RIGHT for 2 units,
for 10 decrement steps in total. -/
theorem C3_amended :
    movedLanes (runRound "quantum" ![5, 2, 0, 3] 3 none (1 / 2))
        = [0, 0, 0, 3, 3, 3, 0, 0, 1, 1]
      ∧ totalOf (runRound "quantum" ![5, 2, 0, 3] 3 none (1 / 2)) = some 10 := by
  decide

/-- C4 (code bug): with a priority lane configured but zero recorded
clearance samples, the aggregation of app.py lines 171-177 takes the pandas
mean of an empty series — NaN, modelled as `none` — and the code formats
that value into the displayed string unconditionally instead of reporting
the figure as absent. -/
theorem C4_zero_samples_nan : displayedAvgClearance [none] = none := rfl

/-- C5 counterexample: for UP:2 with quota 3 under the normal strategy the
run performs 2 decrements but renders 3 frames — the inner loop keeps
rendering (and sleeping) for the full quota after the lane empties, so the
rendered-frame count does not equal the decrement count. -/
theorem C5_counterexample :
    framesCountOf (runRound "normal" ![2, 0, 0, 0] 3 none (1 / 2))
      ≠ totalOf (runRound "normal" ![2, 0, 0, 0] 3 none (1 / 2)) := by decide

/-- C5 amended: a serviced visit performs exactly min(stepsPerVisit, count)
decrements and leaves the lane with count - min(stepsPerVisit, count), but
always runs the full stepsPerVisit iterations of the inner loop, rendering
one frame (with its delay) per iteration whether or not that iteration
decremented — so every serviced visit renders exactly stepsPerVisit frames
and a whole run renders at least as many frames as decrements. -/
theorem C5_amended (amb : Option (Fin 4)) (delay : ℚ) (spv : ℕ) (lane : Fin 4)
    (st : SimState) (h : 0 ≤ st.lanes lane) :
    (serveLane amb delay lane spv st).total
        = st.total + min spv (st.lanes lane).toNat
      ∧ (serveLane amb delay lane spv st).lanes lane
          = st.lanes lane - (min spv (st.lanes lane).toNat : ℕ)
      ∧ (serveLane amb delay lane spv st).frames.length
          = st.frames.length + spv := by
  obtain ⟨h1, h2⟩ := serveLane_spec amb delay lane spv st h
  obtain ⟨fs, hfs, hlen, -⟩ := serveLane_frames amb delay lane spv st
  exact ⟨h2, h1, by rw [hfs, List.length_append, hlen]⟩

/-- Witness for the amended C5: servicing RIGHT with count 2 and quota 3. -/
theorem C5_amended_witness :
    0 ≤ (initState ![0, 2, 0, 0]).lanes 1 ∧
      ((serveLane none (1 / 2) 1 3 (initState ![0, 2, 0, 0])).total
          = (initState ![0, 2, 0, 0]).total
              + min 3 ((initState ![0, 2, 0, 0]).lanes 1).toNat
        ∧ (serveLane none (1 / 2) 1 3 (initState ![0, 2, 0, 0])).lanes 1
            = (initState ![0, 2, 0, 0]).lanes 1
                - (min 3 ((initState ![0, 2, 0, 0]).lanes 1).toNat : ℕ)
        ∧ (serveLane none (1 / 2) 1 3 (initState ![0, 2, 0, 0])).frames.length
            = (initState ![0, 2, 0, 0]).frames.length + 3) :=
  ⟨by decide, C5_amended none (1 / 2) 3 1 (initState ![0, 2, 0, 0]) (by decide)⟩

/-- C6: under any strategy string, starting from non-negative counts, the
final state and every rendered intermediate state have all four lane counts
non-negative — a lane is decremented one unit at a time and only when its
count is positive. -/
theorem C6_nonneg (strategy : String) (lanes0 : LaneState) (spv : ℕ)
    (amb : Option (Fin 4)) (delay : ℚ) (hn : laneNonneg lanes0) :
    statesNonnegB (runRound strategy lanes0 spv amb delay) = true := by
  unfold runRound
  cases hr : runLoop strategy amb delay spv (sumL lanes0).toNat (initState lanes0) with
  | none => rfl
  | some st' =>
    have hNN : NN st' :=
      runLoop_inv strategy amb delay spv NN
        (fun st _ h => loopBody_NN strategy amb delay spv st h)
        (sumL lanes0).toNat (initState lanes0) st'
        ⟨hn, fun f hf => absurd hf (List.not_mem_nil f)⟩ hr
    show (decide (∀ i, 0 ≤ st'.lanes i)
        && st'.frames.all fun f => decide (∀ i, 0 ≤ f.lanes i)) = true
    rw [Bool.and_eq_true]
    refine ⟨decide_eq_true hNN.1, ?_⟩
    rw [List.all_eq_true]
    intro f hf
    exact decide_eq_true (hNN.2 f hf)

/-- Witness for C6 at a concrete quantum run with a priority lane. -/
theorem C6_nonneg_witness :
    laneNonneg ![2, 1, 0, 0]
      ∧ statesNonnegB (runRound "quantum" ![2, 1, 0, 0] 3 (some 1) (1 / 2)) = true :=
  ⟨by decide, C6_nonneg "quantum" ![2, 1, 0, 0] 3 (some 1) (1 / 2) (by decide)⟩

/-- C7: the recorded clearance time: (a) with no priority lane configured it
is `none`; (b) if the priority lane's count is 0 from the start it is never
recorded; (c) if the priority lane starts positive, the finished run has
recorded exactly the running step count of the first rendered frame showing
the priority lane empty, converted to minutes as steps x stepDelay / 60 —
the write-once `is None` guard makes the first clearing moment the one
recorded. -/
theorem C7_clearance (strategy : String) (lanes0 : LaneState) (spv : ℕ)
    (delay : ℚ) (a : Fin 4) (hn : laneNonneg lanes0) (hspv : 0 < spv) :
    ambTimeOf (runRound strategy lanes0 spv none delay) = none
      ∧ (lanes0 a = 0 →
          ambTimeOf (runRound strategy lanes0 spv (some a) delay) = none)
      ∧ (0 < lanes0 a →
          (firstClearOf a (runRound strategy lanes0 spv (some a) delay)).isSome
              = true
            ∧ ambTimeOf (runRound strategy lanes0 spv (some a) delay)
              = clearanceOfStep delay
                  (firstClearOf a (runRound strategy lanes0 spv (some a) delay))) := by
  unfold runRound
  refine ⟨?_, ?_, ?_⟩
  · cases hr : runLoop strategy none delay spv (sumL lanes0).toNat (initState lanes0) with
    | none => rfl
    | some st' =>
      show st'.ambTime = none
      exact runLoop_inv strategy none delay spv (fun st => st.ambTime = none)
        (fun st _ h => loopBody_ambNone strategy delay spv st h)
        (sumL lanes0).toNat (initState lanes0) st' rfl hr
  · intro h0
    cases hr : runLoop strategy (some a) delay spv (sumL lanes0).toNat (initState lanes0) with
    | none => rfl
    | some st' =>
      show st'.ambTime = none
      exact (runLoop_inv strategy (some a) delay spv
        (fun st => st.ambTime = none ∧ st.lanes a = 0)
        (fun st _ h => loopBody_zeroAmb strategy a delay spv st h)
        (sumL lanes0).toNat (initState lanes0) st' ⟨rfl, h0⟩ hr).1
  · intro hpos
    obtain ⟨st', hrun, htot, hdr⟩ := runLoop_drain strategy (some a) delay spv hspv
      (sumL lanes0).toNat (initState lanes0) hn (le_refl _)
    have hCI : ClearInv a delay st' :=
      runLoop_inv strategy (some a) delay spv (ClearInv a delay)
        (fun st _ h => loopBody_clearInv strategy a delay spv st h)
        (sumL lanes0).toNat (initState lanes0) st'
        (Or.inl ⟨rfl, hpos, fun f hf => absurd hf (List.not_mem_nil f)⟩) hrun
    rcases hCI with ⟨-, hpos', -⟩ | ⟨t, hA, hFC⟩
    · rw [hdr a] at hpos'
      exact absurd hpos' (lt_irrefl 0)
    · rw [hrun]
      constructor
      · show (firstClear a st'.frames).isSome = true
        rw [hFC]
        rfl
      · show st'.ambTime = clearanceOfStep delay (firstClear a st'.frames)
        rw [hFC, hA]
        rfl

/-- Witness for C7 at UP:2, RIGHT:1 with priority lane RIGHT. -/
theorem C7_clearance_witness :
    laneNonneg ![2, 1, 0, 0] ∧ 0 < 3
      ∧ (0 : ℤ) < (![2, 1, 0, 0] : LaneState) 1
      ∧ ambTimeOf (runRound "quantum" ![2, 1, 0, 0] 3 none (1 / 2)) = none
      ∧ (firstClearOf 1 (runRound "quantum" ![2, 1, 0, 0] 3 (some 1) (1 / 2))).isSome
          = true
      ∧ ambTimeOf (runRound "quantum" ![2, 1, 0, 0] 3 (some 1) (1 / 2))
          = clearanceOfStep (1 / 2)
              (firstClearOf 1 (runRound "quantum" ![2, 1, 0, 0] 3 (some 1) (1 / 2))) :=
  ⟨by decide, by decide, by decide,
    (C7_clearance "quantum" ![2, 1, 0, 0] 3 (1 / 2) 1 (by decide) (by decide)).1,
    ((C7_clearance "quantum" ![2, 1, 0, 0] 3 (1 / 2) 1 (by decide) (by decide)).2.2
      (by decide)).1,
    ((C7_clearance "quantum" ![2, 1, 0, 0] 3 (1 / 2) 1 (by decide) (by decide)).2.2
      (by decide)).2⟩

/-- C8: for every seed, the savings draws lie in the inclusive ranges
Normal time [0,5], fuel [0,10], carbon [0,12] and Quantum time [5,15],
fuel [10,20], carbon [15,25]; consequently every quantum draw is greater
than or equal to the corresponding normal draw. -/
theorem C8_savings_ranges (r1 r2 r3 s1 s2 s3 : ℕ) :
    (savings "normal" r1 r2 r3).1 ≤ 5
      ∧ (savings "normal" r1 r2 r3).2.1 ≤ 10
      ∧ (savings "normal" r1 r2 r3).2.2 ≤ 12
      ∧ 5 ≤ (savings "quantum" s1 s2 s3).1
      ∧ (savings "quantum" s1 s2 s3).1 ≤ 15
      ∧ 10 ≤ (savings "quantum" s1 s2 s3).2.1
      ∧ (savings "quantum" s1 s2 s3).2.1 ≤ 20
      ∧ 15 ≤ (savings "quantum" s1 s2 s3).2.2
      ∧ (savings "quantum" s1 s2 s3).2.2 ≤ 25
      ∧ (savings "normal" r1 r2 r3).1 ≤ (savings "quantum" s1 s2 s3).1
      ∧ (savings "normal" r1 r2 r3).2.1 ≤ (savings "quantum" s1 s2 s3).2.1
      ∧ (savings "normal" r1 r2 r3).2.2 ≤ (savings "quantum" s1 s2 s3).2.2 := by
  have e1 : savings "normal" r1 r2 r3 = (0 + r1 % 6, 0 + r2 % 11, 0 + r3 % 13) := rfl
  have e2 : savings "quantum" s1 s2 s3 = (5 + s1 % 11, 10 + s2 % 11, 15 + s3 % 11) := rfl
  simp only [e1, e2]
  omega

/-- C10: `simulate_round` works on a copy of the caller's dict (app.py line
57) and never mutates the original: after running the normal strategy and
then the quantum strategy, the dict stored at the initial address is
unchanged, and both invocations observed the identical initial lane
state. -/
theorem C10_no_mutation (h : Heap) (i a1 a2 : ℕ) (spv : ℕ) (delay : ℚ)
    (amb : Option (Fin 4)) (f1 f2 : ℕ) (h1 : a1 ≠ i) (h2 : a2 ≠ i) :
    (simulate_round_heap h i a1 spv delay "normal" amb f1).1 i = h i
      ∧ (simulate_round_heap h i a1 spv delay "normal" amb f1).2
          = runLoop "normal" amb delay spv f1 (initState (h i))
      ∧ (simulate_round_heap (simulate_round_heap h i a1 spv delay "normal" amb f1).1
            i a2 spv delay "quantum" amb f2).1 i = h i
      ∧ (simulate_round_heap (simulate_round_heap h i a1 spv delay "normal" amb f1).1
            i a2 spv delay "quantum" amb f2).2
          = runLoop "quantum" amb delay spv f2 (initState (h i)) := by
  obtain ⟨p1, p2⟩ := simulate_round_heap_frame h i a1 spv delay "normal" amb f1 h1
  obtain ⟨q1, q2⟩ := simulate_round_heap_frame
    (simulate_round_heap h i a1 spv delay "normal" amb f1).1 i a2 spv delay
    "quantum" amb f2 h2
  refine ⟨p1, p2, ?_, ?_⟩
  · rw [q1, p1]
  · rw [q2, p1]

/-- Witness for C10 on a concrete one-car heap. -/
theorem C10_no_mutation_witness :
    (1 : ℕ) ≠ 0 ∧ (2 : ℕ) ≠ 0
      ∧ ((simulate_round_heap exHeap 0 1 3 (1 / 2) "normal" none 1).1 0 = exHeap 0
        ∧ (simulate_round_heap exHeap 0 1 3 (1 / 2) "normal" none 1).2
            = runLoop "normal" none (1 / 2) 3 1 (initState (exHeap 0))
        ∧ (simulate_round_heap
              (simulate_round_heap exHeap 0 1 3 (1 / 2) "normal" none 1).1
              0 2 3 (1 / 2) "quantum" none 1).1 0 = exHeap 0
        ∧ (simulate_round_heap
              (simulate_round_heap exHeap 0 1 3 (1 / 2) "normal" none 1).1
              0 2 3 (1 / 2) "quantum" none 1).2
            = runLoop "quantum" none (1 / 2) 3 1 (initState (exHeap 0))) :=
  ⟨by decide, by decide,
    C10_no_mutation exHeap 0 1 2 3 (1 / 2) none 1 1 (by decide) (by decide)⟩

end TrafficQ
